import Mathlib

/-!
Shallow embedding of the `rust_search` file-searcher core (src/src/main.rs):
the case-insensitive matcher, the zip archive inspector, the on-demand
archive extraction, the two directory-walk passes (counting and searching),
the search-pass state fold, and the start-search guard.
Strings are modelled as lists of characters; Rust's `to_lowercase` is
modelled per-character (the inputs of interest are ASCII).
-/

namespace RustSearch

/-- Strings are modelled as lists of characters. -/
abbrev Str := List Char

/-- Rust `str::to_lowercase`, per-character (ASCII). -/
def toLower (s : Str) : Str := s.map Char.toLower

/-- Rust `str::contains`: does `hay` contain `pat` as a contiguous substring? -/
def strContains : Str → Str → Bool
  | [], pat => pat.isEmpty
  | c :: t, pat => pat.isPrefixOf (c :: t) || strContains t pat

/-- `is_match` (main.rs:253-259): the entry's file name, lower-cased,
must contain the (already lower-cased) query. -/
def is_match (name query : Str) : Bool := strContains (toLower name) query

/-- `.replace("\\", "/")` on an internal zip entry name (main.rs:196,266). -/
def normalizeSeps (s : Str) : Str := s.map (fun c => if c = '\\' then '/' else c)

/-- Rust `str::split(sep)`: always yields at least one (possibly empty) piece. -/
def splitOnChar (sep : Char) (s : Str) : List Str :=
  s.foldr
    (fun ch acc =>
      match acc with
      | [] => [[ch]]
      | h :: t => if ch = sep then [] :: h :: t else (ch :: h) :: t)
    [[]]

/-- Rust `str::trim`: strip whitespace from both ends. -/
def trimStr (s : Str) : Str :=
  ((s.dropWhile Char.isWhitespace).reverse.dropWhile Char.isWhitespace).reverse

/-- An internal zip entry: its stored name and its decompressed bytes. -/
structure ZipEntry where
  name : Str
  contents : List Nat
deriving DecidableEq

/-- One element of the shared results vector
`(String, Option<PathBuf>, bool)` (main.rs:17): display label, the owning
archive's path (for archive hits), and the is-zip-entry flag. -/
structure Hit where
  label : Str
  zipPath : Option Str
  isZipEntry : Bool
deriving DecidableEq

/-- `search_in_zip` (main.rs:261-288): every internal entry whose
separator-normalized, lower-cased name contains the query yields a hit
labelled `"{archive}: {original name}"` with the archive path and the
zip flag set. An archive that fails to open or parse yields no entries
here (modelled by the caller passing no entry list at all). -/
def search_in_zip (path : Str) (query : Str) (entries : List ZipEntry) :
    List Hit :=
  entries.filterMap (fun e =>
    if strContains (toLower (normalizeSeps e.name)) query then
      some ⟨path ++ (": ".toList) ++ e.name, some path, true⟩
    else none)

/-- `path.split(':').last().unwrap().trim()` then `.replace("\\", "/")`
(main.rs:164,197): the internal entry name recovered from a hit label. -/
def extractTargetName (label : Str) : Str :=
  normalizeSeps (trimStr ((splitOnChar ':' label).getLastD []))

/-- The extraction loop of `open_file` (main.rs:187-230): scan the archive
entries in order and copy out the bytes of the first entry whose
separator-normalized name equals the recovered target name; `none`
models "File not found in zip". -/
def open_file_extract (label : Str) (entries : List ZipEntry) :
    Option (List Nat) :=
  (entries.find? (fun e =>
    decide (normalizeSeps e.name = extractTargetName label))).map
    ZipEntry.contents

/-- Rust `Path::extension` on a file name: the portion after the final
`'.'`; `none` when there is no `'.'` or when the name is a dotfile whose
only `'.'` is the leading one. -/
def extension (name : Str) : Option Str :=
  match splitOnChar '.' name with
  | [] => none
  | [_] => none
  | [[], _] => none
  | _ :: rest => rest.getLast?

/-- A filesystem tree. Symbolic links are modelled with their target
already resolved: `symlinkFile` links to a regular file (carrying that
file's zip-archive content when it parses as one), `symlinkDir` links to
a directory with the given children. `zipData = some es` on a file means
opening it as a zip archive succeeds and enumerates `es`; `none` means
the open or parse fails (or the node is not a regular file). -/
inductive FsNode where
  | file (name : Str) (zipData : Option (List ZipEntry))
  | dir (name : Str) (children : List FsNode)
  | symlinkFile (name : Str) (zipData : Option (List ZipEntry))
  | symlinkDir (name : Str) (children : List FsNode)

/-- The name of a node, as `DirEntry::file_name` would report it. -/
def nodeName : FsNode → Str
  | .file n _ => n
  | .dir n _ => n
  | .symlinkFile n _ => n
  | .symlinkDir n _ => n

/-- A visited directory entry: its display path, its file name, and the
zip content behind its path (if opening the path parses as a zip). -/
structure Entry where
  path : Str
  name : Str
  zipData : Option (List ZipEntry)
deriving DecidableEq

/-- Path of a child inside a directory at `base`. -/
def childPath (base : Str) (n : Str) : Str := base ++ ('/' :: n)

mutual
/-- The counting pass `WalkDir::new(dir)` (main.rs:79-86): no
`follow_links`, so a symlink is visited as a single entry and a symlink
to a directory is not recursed into. `p` is the path of the node. -/
def walkCountAt : Str → FsNode → List Entry
  | p, .file n z => [⟨p, n, z⟩]
  | p, .dir n cs => ⟨p, n, none⟩ :: walkCountChildren p cs
  | p, .symlinkFile n z => [⟨p, n, z⟩]
  | p, .symlinkDir n _ => [⟨p, n, none⟩]

def walkCountChildren : Str → List FsNode → List Entry
  | _, [] => []
  | p, c :: cs =>
      walkCountAt (childPath p (nodeName c)) c ++ walkCountChildren p cs
end

mutual
/-- The search pass `WalkDir::new(dir).follow_links(true)`
(main.rs:90-94): a symlink to a directory is recursed into through the
link's path. -/
def walkSearchAt : Str → FsNode → List Entry
  | p, .file n z => [⟨p, n, z⟩]
  | p, .dir n cs => ⟨p, n, none⟩ :: walkSearchChildren p cs
  | p, .symlinkFile n z => [⟨p, n, z⟩]
  | p, .symlinkDir n cs => ⟨p, n, none⟩ :: walkSearchChildren p cs

def walkSearchChildren : Str → List FsNode → List Entry
  | _, [] => []
  | p, c :: cs =>
      walkSearchAt (childPath p (nodeName c)) c ++ walkSearchChildren p cs
end

mutual
/-- `true` when the tree contains no symbolic links at all. -/
def noSymlinks : FsNode → Bool
  | .file _ _ => true
  | .dir _ cs => noSymlinksList cs
  | .symlinkFile _ _ => false
  | .symlinkDir _ _ => false

def noSymlinksList : List FsNode → Bool
  | [] => true
  | c :: cs => noSymlinks c && noSymlinksList cs
end

/-- `total_count` (main.rs:79-86): the number of entries the counting
pass visits. -/
def totalCount (p : Str) (root : FsNode) : Nat := (walkCountAt p root).length

/-- The mutable state of one search pass: the shared results vector
(archive hits are pushed into it during the traversal), the
`matched_files` accumulator produced by the `filter_map` (filesystem
hits, extended into the shared vector only after `.collect()`), and the
`processed_entries` counter. -/
structure SearchState where
  results : List Hit
  matched : List Hit
  processed : Nat
deriving DecidableEq

/-- The archive hits contributed by one visited entry (main.rs:96-98):
inspection is attempted exactly when the path extension equals `"zip"`;
it yields hits only when the file opens and parses as a zip. -/
def stepZipHits (query : Str) (e : Entry) : List Hit :=
  if extension e.name = some ("zip".toList) then
    match e.zipData with
    | some es => search_in_zip e.path query es
    | none => []
  else []

/-- Processing of one visited entry in the search pass (main.rs:95-112):
dispatch to the archive inspector, then either emit a filesystem hit for
a matching name (the closure returns `Some` early, skipping the
`processed_entries` increment) or increment `processed_entries`. -/
def searchStep (query : Str) (st : SearchState) (e : Entry) : SearchState :=
  let st1 : SearchState := { st with results := st.results ++ stepZipHits query e }
  if is_match e.name query then
    { st1 with matched := st1.matched ++ [⟨e.path, none, false⟩] }
  else
    { st1 with processed := st1.processed + 1 }

/-- The search pass over a list of visited entries, starting from the
cleared state (main.rs:73-76,90-113). -/
def searchPass (query : Str) (entries : List Entry) : SearchState :=
  entries.foldl (searchStep query) ⟨[], [], 0⟩

/-- `all_results.extend(matched_files)` (main.rs:115-116): the final
shared results vector is the archive hits gathered during the traversal
followed by the collected filesystem hits. -/
def finalResults (query : Str) (entries : List Entry) : List Hit :=
  (searchPass query entries).results ++ (searchPass query entries).matched

/-- `SearchStats` (main.rs:29-33,119-123): `total_files` is the counting
pass total, `matched_files` the length of the final results vector. -/
structure SearchStatsM where
  total_files : Nat
  matched_files : Nat
deriving DecidableEq

/-- One whole search (main.rs:53-123): lower-case the query once, count
without following links, search following links, extend the results and
produce the statistics. -/
def runSearch (rootPath : Str) (root : FsNode) (rawQuery : Str) :
    SearchStatsM × List Hit :=
  let query := toLower rawQuery
  let total := totalCount rootPath root
  let final := finalResults query (walkSearchAt rootPath root)
  (⟨total, final.length⟩, final)

/-- State of the start-search guard: the `searching` flag, whether each
of two button-click invocations passed its `!searching` guard
(main.rs:305-309) and spawned a thread, whether each spawned thread has
begun its body (main.rs:72-76: set `searching`, reset progress, clear
results and counters), the number of threads running the search body,
and the number of times the shared session state was reset. -/
structure GuardState where
  searching : Bool
  passed0 : Bool
  passed1 : Bool
  started0 : Bool
  started1 : Bool
  sessions : Nat
  resets : Nat
deriving DecidableEq

/-- The atomic actions of two rapid `Go` invocations: `check i` is the
UI-thread guard test `if !*searching { spawn }` of invocation `i`;
`start i` is the spawned thread's prologue, which sets `searching`,
resets the shared progress/result state and enters the search body. -/
inductive GuardAct where
  | check0
  | check1
  | start0
  | start1
deriving DecidableEq

/-- Interleaving semantics of the guard: a `check` only has an effect
the first time its invocation runs it, and spawns only when `searching`
is observed false; a `start` only fires for an invocation whose check
spawned a thread that has not started yet. -/
def guardStep (s : GuardState) : GuardAct → GuardState
  | .check0 =>
      if s.passed0 || s.started0 then s
      else if s.searching then s else { s with passed0 := true }
  | .check1 =>
      if s.passed1 || s.started1 then s
      else if s.searching then s else { s with passed1 := true }
  | .start0 =>
      if s.passed0 && !s.started0 then
        { s with searching := true, started0 := true,
                 sessions := s.sessions + 1, resets := s.resets + 1 }
      else s
  | .start1 =>
      if s.passed1 && !s.started1 then
        { s with searching := true, started1 := true,
                 sessions := s.sessions + 1, resets := s.resets + 1 }
      else s

/-- Run a schedule of guard actions from the idle state. -/
def guardRun (acts : List GuardAct) : GuardState :=
  acts.foldl guardStep ⟨false, false, false, false, false, 0, 0⟩

/-- A directory holding exactly `report.txt`, `Report_final.txt` and
`notes.md`. -/
def c2Tree : FsNode :=
  .dir ("root".toList)
    [.file ("report.txt".toList) none,
     .file ("Report_final.txt".toList) none,
     .file ("notes.md".toList) none]

/-- A directory holding three plain files, one of whose names matches the
query `"match"`. -/
def c3Tree : FsNode :=
  .dir ("d".toList)
    [.file ("a.txt".toList) none,
     .file ("b.txt".toList) none,
     .file ("match.txt".toList) none]

/-- A directory holding one symbolic link to a directory with three
files. -/
def symTree : FsNode :=
  .dir ("r".toList)
    [.symlinkDir ("link".toList)
      [.file ("x".toList) none,
       .file ("y".toList) none,
       .file ("z".toList) none]]

end RustSearch

namespace RustSearch

theorem strContains_correct (hay pat : Str) :
    strContains hay pat = true ↔ pat <:+: hay := by
  induction hay with
  | nil =>
      simp [strContains, List.isEmpty_iff]
  | cons c t ih =>
      rw [strContains, Bool.or_eq_true, ih,
        List.infix_cons_iff,
        List.isPrefixOf_iff_prefix]

mutual
theorem walkAgree_node : ∀ (p : Str) (n : FsNode), noSymlinks n = true →
    walkSearchAt p n = walkCountAt p n
  | _, .file _ _, _ => rfl
  | p, .dir n cs, h => by
      have h' : noSymlinksList cs = true := by
        simpa [noSymlinks] using h
      rw [walkSearchAt, walkCountAt, walkAgree_children p cs h']
  | _, .symlinkFile n z, h => by simp [noSymlinks] at h
  | _, .symlinkDir n cs, h => by simp [noSymlinks] at h

theorem walkAgree_children : ∀ (p : Str) (cs : List FsNode),
    noSymlinksList cs = true →
    walkSearchChildren p cs = walkCountChildren p cs
  | _, [], _ => rfl
  | p, c :: cs, h => by
      have h' : noSymlinks c = true ∧ noSymlinksList cs = true := by
        simpa [noSymlinksList, Bool.and_eq_true] using h
      rw [walkSearchChildren, walkCountChildren,
        walkAgree_node (childPath p (nodeName c)) c h'.1,
        walkAgree_children p cs h'.2]
end

theorem searchStep_results (q : Str) (st : SearchState) (e : Entry) :
    (searchStep q st e).results = st.results ++ stepZipHits q e := by
  simp only [searchStep]
  split <;> rfl

theorem searchStep_matched (q : Str) (st : SearchState) (e : Entry) :
    (searchStep q st e).matched = st.matched ∨
    (searchStep q st e).matched = st.matched ++ [⟨e.path, none, false⟩] := by
  simp only [searchStep]
  split
  · exact Or.inr rfl
  · exact Or.inl rfl

theorem searchStep_processed (q : Str) (st : SearchState) (e : Entry) :
    st.processed ≤ (searchStep q st e).processed ∧
    (searchStep q st e).processed ≤ st.processed + 1 := by
  simp only [searchStep]
  split <;> simp

theorem foldl_processed_mono (q : Str) : ∀ (es : List Entry) (st : SearchState),
    st.processed ≤ (es.foldl (searchStep q) st).processed
  | [], _ => le_refl _
  | e :: es, st =>
      le_trans (searchStep_processed q st e).1 (foldl_processed_mono q es _)

theorem foldl_processed_bound (q : Str) : ∀ (es : List Entry) (st : SearchState),
    (es.foldl (searchStep q) st).processed ≤ st.processed + es.length
  | [], _ => le_refl _
  | e :: es, st => by
      refine le_trans (foldl_processed_bound q es _) ?_
      have := (searchStep_processed q st e).2
      simpa [List.length_cons, Nat.add_comm, Nat.add_left_comm] using
        Nat.add_le_add_right this es.length

theorem mem_search_in_zip_isZip {p q : Str} {es : List ZipEntry} {h : Hit}
    (hm : h ∈ search_in_zip p q es) : h.isZipEntry = true := by
  rcases List.mem_filterMap.mp hm with ⟨e, _, he⟩
  split at he
  · cases he; rfl
  · cases he

theorem mem_stepZipHits_isZip {q : Str} {e : Entry} {h : Hit}
    (hm : h ∈ stepZipHits q e) : h.isZipEntry = true := by
  rw [stepZipHits] at hm
  split at hm
  · split at hm
    · exact mem_search_in_zip_isZip hm
    · simp at hm
  · simp at hm

theorem foldl_results_isZip (q : Str) : ∀ (es : List Entry) (st : SearchState),
    (∀ h ∈ st.results, h.isZipEntry = true) →
    ∀ h ∈ ((es.foldl (searchStep q) st).results), h.isZipEntry = true
  | [], _, hst => hst
  | e :: es, st, hst => by
      refine foldl_results_isZip q es _ ?_
      intro h hm
      rw [searchStep_results] at hm
      rcases List.mem_append.mp hm with h1 | h2
      · exact hst h h1
      · exact mem_stepZipHits_isZip h2

theorem foldl_matched_fs (q : Str) : ∀ (es : List Entry) (st : SearchState),
    (∀ h ∈ st.matched, h.isZipEntry = false) →
    ∀ h ∈ ((es.foldl (searchStep q) st).matched), h.isZipEntry = false
  | [], _, hst => hst
  | e :: es, st, hst => by
      refine foldl_matched_fs q es _ ?_
      intro h hm
      rcases searchStep_matched q st e with heq | heq
      · exact hst h (heq ▸ hm)
      · rw [heq] at hm
        rcases List.mem_append.mp hm with h1 | h2
        · exact hst h h1
        · rcases List.mem_singleton.mp h2 with rfl
          rfl

theorem search_in_zip_singleton (p q : Str) (e : ZipEntry)
    (h : strContains (toLower (normalizeSeps e.name)) q = true) :
    search_in_zip p q [e] = [⟨p ++ (": ".toList) ++ e.name, some p, true⟩] := by
  simp [search_in_zip, h]

/-- C1: for every name `n` and query `q`, the matcher (the composition of
the query lower-casing at main.rs:54 with `is_match`) returns `true` iff
the lower-cased query is a contiguous substring of the lower-cased name;
in particular the empty query matches every name. -/
theorem C1_matcher_iff_substring (n q : Str) :
    (is_match n (toLower q) = true ↔ toLower q <:+: toLower n) ∧
    is_match n (toLower ("".toList)) = true := by
  constructor
  · exact strContains_correct (toLower n) (toLower q)
  · exact (strContains_correct (toLower n) (toLower ("".toList))).mpr
      ⟨[], toLower n, rfl⟩

/-- C2 counterexample: for the directory holding exactly `report.txt`,
`Report_final.txt` and `notes.md` and the query `"report"`, the reported
`total_files` is not 3 — the walk also counts the root directory itself,
giving 4. -/
theorem C2_total_files_not_three :
    ¬ ((runSearch ("D:".toList) c2Tree ("report".toList)).1.total_files = 3) := by
  decide

/-- C2 (amended): the same scenario yields exactly the two filesystem
hits for `report.txt` and `Report_final.txt`, no archive hits,
`total_files = 4` (the root directory is also a counted entry) and
`matched_files = 2`. -/
theorem C2_scenario_report :
    (runSearch ("D:".toList) c2Tree ("report".toList)).1 = ⟨4, 2⟩ ∧
    (searchPass (toLower ("report".toList))
      (walkSearchAt ("D:".toList) c2Tree)).results = [] ∧
    (searchPass (toLower ("report".toList))
      (walkSearchAt ("D:".toList) c2Tree)).matched =
      [⟨"D:/report.txt".toList, none, false⟩,
       ⟨"D:/Report_final.txt".toList, none, false⟩] := by
  decide

/-- C3 evaluated at the failing input: in a directory of four visited
entries of which one matches the query, the search pass increments the
processed counter only three times, because the traversal closure
returns its filesystem hit before reaching the increment; the counting
pass total is 4, so the processed counter never reaches it. -/
theorem C3_match_skips_processed_increment :
    (searchPass (toLower ("match".toList))
      (walkSearchAt ("D:".toList) c3Tree)).processed = 3 ∧
    totalCount ("D:".toList) c3Tree = 4 ∧
    (walkSearchAt ("D:".toList) c3Tree).length = 4 := by
  decide

/-- C4 counterexample: on a tree with a symbolic link to a directory of
three files, the search pass (which follows links) makes five processed
increments while the counting pass (which does not follow links) fixed
the total at 2, so the processed counter exceeds the total. -/
theorem C4_processed_can_exceed_total :
    ¬ ((searchPass (toLower ("q".toList))
        (walkSearchAt ("R:".toList) symTree)).processed ≤
       totalCount ("R:".toList) symTree) := by
  decide

/-- C4 (amended): during the processing phase the processed counter is
monotone (its value after any prefix of the visited entries is at most
its final value), and provided the tree contains no symbolic links the
counter never exceeds the counting-pass total at any point. -/
theorem C4_processed_monotone_and_bounded (q p : Str) (root : FsNode)
    (es1 es2 : List Entry) (hsplit : walkSearchAt p root = es1 ++ es2) :
    (searchPass q es1).processed ≤
      (searchPass q (walkSearchAt p root)).processed ∧
    (noSymlinks root = true →
      (searchPass q es1).processed ≤ totalCount p root) := by
  constructor
  · rw [hsplit]
    simp only [searchPass, List.foldl_append]
    exact foldl_processed_mono q es2 _
  · intro hns
    have h1 : (searchPass q es1).processed ≤ es1.length := by
      simpa [searchPass] using foldl_processed_bound q es1 ⟨[], [], 0⟩
    have h2 : es1.length ≤ (walkSearchAt p root).length := by
      rw [hsplit, List.length_append]
      exact Nat.le_add_right _ _
    have h3 : (walkSearchAt p root).length = totalCount p root := by
      rw [walkAgree_node p root hns, totalCount]
    exact le_trans h1 (h3 ▸ h2)

theorem C4_witness :
    walkSearchAt ("D:".toList) c2Tree =
      [] ++ walkSearchAt ("D:".toList) c2Tree ∧
    noSymlinks c2Tree = true ∧
    (searchPass (toLower ("report".toList)) []).processed ≤
      totalCount ("D:".toList) c2Tree :=
  ⟨rfl, by decide,
    (C4_processed_monotone_and_bounded (toLower ("report".toList))
      ("D:".toList) c2Tree [] (walkSearchAt ("D:".toList) c2Tree) rfl).2
      (by decide)⟩

/-- C5 counterexample: the entry `R:/link/x` behind a directory symlink
is visited by the search pass but not by the counting pass, so the two
passes do not visit the same set of entries. -/
theorem C5_walks_differ_on_symlinks :
    (⟨"R:/link/x".toList, "x".toList, none⟩ : Entry) ∈
      walkSearchAt ("R:".toList) symTree ∧
    (⟨"R:/link/x".toList, "x".toList, none⟩ : Entry) ∉
      walkCountAt ("R:".toList) symTree := by
  decide

/-- C5 (amended): only the search pass follows symbolic links; the
counting pass does not, so the two passes visit the same entries exactly
when the tree contains no symbolic links, and only then is the count
total an accurate denominator for the search pass. -/
theorem C5_walks_agree_without_symlinks (p : Str) (root : FsNode)
    (h : noSymlinks root = true) :
    walkSearchAt p root = walkCountAt p root :=
  walkAgree_node p root h

theorem C5_witness :
    noSymlinks c2Tree = true ∧
    walkSearchAt ("D:".toList) c2Tree = walkCountAt ("D:".toList) c2Tree :=
  ⟨by decide, C5_walks_agree_without_symlinks ("D:".toList) c2Tree (by decide)⟩

/-- C6: for an archive holding the internal entry `a/b.txt` with any
contents, any query whose lower-case form is a substring of `b.txt`
yields exactly one archive hit, and running the extraction on that hit's
label recovers exactly the entry's bytes. -/
theorem C6_archive_roundtrip (q : Str) (c : List Nat)
    (hq : strContains ("b.txt".toList) (toLower q) = true) :
    search_in_zip ("C:/test.zip".toList) (toLower q)
        [⟨"a/b.txt".toList, c⟩] =
      [⟨"C:/test.zip: a/b.txt".toList, some ("C:/test.zip".toList), true⟩] ∧
    open_file_extract ("C:/test.zip: a/b.txt".toList)
        [⟨"a/b.txt".toList, c⟩] = some c := by
  have hsub : toLower q <:+: ("b.txt".toList) :=
    (strContains_correct _ _).mp hq
  have htrans : toLower q <:+: ("a/b.txt".toList) :=
    hsub.trans ⟨"a/".toList, [], by decide⟩
  have hcond : strContains
      (toLower (normalizeSeps ("a/b.txt".toList))) (toLower q) = true := by
    rw [show toLower (normalizeSeps ("a/b.txt".toList)) = "a/b.txt".toList
      from by decide]
    exact (strContains_correct _ _).mpr htrans
  constructor
  · rw [search_in_zip_singleton _ _ _ hcond]
    show [(⟨"C:/test.zip".toList ++ (": ".toList) ++ "a/b.txt".toList,
      some ("C:/test.zip".toList), true⟩ : Hit)] = _
    decide
  · have hp : decide (normalizeSeps ("a/b.txt".toList) =
        extractTargetName ("C:/test.zip: a/b.txt".toList)) = true := by decide
    rw [open_file_extract, @List.find?_cons_of_pos ZipEntry
      (fun e => decide (normalizeSeps e.name =
        extractTargetName ("C:/test.zip: a/b.txt".toList)))
      ⟨"a/b.txt".toList, c⟩ [] hp]
    rfl

theorem C6_witness :
    strContains ("b.txt".toList) (toLower ("B.TX".toList)) = true ∧
    search_in_zip ("C:/test.zip".toList) (toLower ("B.TX".toList))
        [⟨"a/b.txt".toList, [104, 105]⟩] =
      [⟨"C:/test.zip: a/b.txt".toList, some ("C:/test.zip".toList), true⟩] ∧
    open_file_extract ("C:/test.zip: a/b.txt".toList)
        [⟨"a/b.txt".toList, [104, 105]⟩] = some [104, 105] :=
  ⟨by decide,
    (C6_archive_roundtrip ("B.TX".toList) [104, 105] (by decide)).1,
    (C6_archive_roundtrip ("B.TX".toList) [104, 105] (by decide)).2⟩

/-- C7: two archives store the same logical internal path, one with
backslash separators and one with forward slashes; any (lower-cased)
query that matches the normalized path produces exactly one hit in each
archive, and the extraction recovers the right bytes from each, because
internal names are separator-normalized before the substring comparison
and before the extraction lookup. -/
theorem C7_separator_normalization (q : Str) (c1 c2 : List Nat)
    (hq : strContains ("a/b.txt".toList) q = true) :
    search_in_zip ("C:/one.zip".toList) q [⟨"a\\b.txt".toList, c1⟩] =
      [⟨"C:/one.zip: a\\b.txt".toList, some ("C:/one.zip".toList), true⟩] ∧
    open_file_extract ("C:/one.zip: a\\b.txt".toList)
        [⟨"a\\b.txt".toList, c1⟩] = some c1 ∧
    search_in_zip ("C:/two.zip".toList) q [⟨"a/b.txt".toList, c2⟩] =
      [⟨"C:/two.zip: a/b.txt".toList, some ("C:/two.zip".toList), true⟩] ∧
    open_file_extract ("C:/two.zip: a/b.txt".toList)
        [⟨"a/b.txt".toList, c2⟩] = some c2 := by
  have h1 : strContains
      (toLower (normalizeSeps ("a\\b.txt".toList))) q = true := by
    rw [show toLower (normalizeSeps ("a\\b.txt".toList)) = "a/b.txt".toList
      from by decide]
    exact hq
  have h2 : strContains
      (toLower (normalizeSeps ("a/b.txt".toList))) q = true := by
    rw [show toLower (normalizeSeps ("a/b.txt".toList)) = "a/b.txt".toList
      from by decide]
    exact hq
  refine ⟨?_, ?_, ?_, ?_⟩
  · rw [search_in_zip_singleton _ _ _ h1]
    show [(⟨"C:/one.zip".toList ++ (": ".toList) ++ "a\\b.txt".toList,
      some ("C:/one.zip".toList), true⟩ : Hit)] = _
    decide
  · have hp : decide (normalizeSeps ("a\\b.txt".toList) =
        extractTargetName ("C:/one.zip: a\\b.txt".toList)) = true := by decide
    rw [open_file_extract, @List.find?_cons_of_pos ZipEntry
      (fun e => decide (normalizeSeps e.name =
        extractTargetName ("C:/one.zip: a\\b.txt".toList)))
      ⟨"a\\b.txt".toList, c1⟩ [] hp]
    rfl
  · rw [search_in_zip_singleton _ _ _ h2]
    show [(⟨"C:/two.zip".toList ++ (": ".toList) ++ "a/b.txt".toList,
      some ("C:/two.zip".toList), true⟩ : Hit)] = _
    decide
  · have hp : decide (normalizeSeps ("a/b.txt".toList) =
        extractTargetName ("C:/two.zip: a/b.txt".toList)) = true := by decide
    rw [open_file_extract, @List.find?_cons_of_pos ZipEntry
      (fun e => decide (normalizeSeps e.name =
        extractTargetName ("C:/two.zip: a/b.txt".toList)))
      ⟨"a/b.txt".toList, c2⟩ [] hp]
    rfl

theorem C7_witness :
    strContains ("a/b.txt".toList) ("b.txt".toList) = true ∧
    (search_in_zip ("C:/one.zip".toList) ("b.txt".toList)
        [⟨"a\\b.txt".toList, [1]⟩] =
      [⟨"C:/one.zip: a\\b.txt".toList, some ("C:/one.zip".toList), true⟩] ∧
     open_file_extract ("C:/one.zip: a\\b.txt".toList)
        [⟨"a\\b.txt".toList, [1]⟩] = some [1] ∧
     search_in_zip ("C:/two.zip".toList) ("b.txt".toList)
        [⟨"a/b.txt".toList, [2]⟩] =
      [⟨"C:/two.zip: a/b.txt".toList, some ("C:/two.zip".toList), true⟩] ∧
     open_file_extract ("C:/two.zip: a/b.txt".toList)
        [⟨"a/b.txt".toList, [2]⟩] = some [2]) :=
  ⟨by decide,
    C7_separator_normalization ("b.txt".toList) [1] [2] (by decide)⟩

/-- C8 evaluated at the failing schedule: when both button-click guard
checks run before either spawned thread has set the `searching` flag,
both threads enter the search body — two active sessions, and the shared
state is reset a second time after the first session already started.
When the first thread sets the flag before the second check, the guard
works and only one session runs. -/
theorem C8_guard_race :
    (guardRun [.check0, .check1, .start0, .start1]).sessions = 2 ∧
    (guardRun [.check0, .check1, .start0, .start1]).resets = 2 ∧
    (guardRun [.check0, .start0, .check1, .start1]).sessions = 1 := by
  decide

/-- C9: the archive inspector runs for a visited entry only when the
entry's extension is exactly the lower-case string `zip`: an entry with
any other extension contributes no archive hits, a file named `DATA.ZIP`
is never inspected even though its member matches the query, and the
same file named `data.zip` is inspected and yields the hit. -/
theorem C9_zip_dispatch_exact_lowercase :
    (∀ (q : Str) (e : Entry), extension e.name ≠ some ("zip".toList) →
      stepZipHits q e = []) ∧
    stepZipHits (toLower ("data".toList))
      ⟨"C:/DATA.ZIP".toList, "DATA.ZIP".toList,
       some [⟨"data_member.txt".toList, [1]⟩]⟩ = [] ∧
    stepZipHits (toLower ("data".toList))
      ⟨"C:/data.zip".toList, "data.zip".toList,
       some [⟨"data_member.txt".toList, [1]⟩]⟩ =
      [⟨"C:/data.zip: data_member.txt".toList,
        some ("C:/data.zip".toList), true⟩] := by
  refine ⟨?_, by decide, by decide⟩
  intro q e h
  rw [stepZipHits, if_neg h]

theorem C9_witness :
    extension ("report.txt".toList) ≠ some ("zip".toList) ∧
    stepZipHits ("x".toList)
      ⟨"D:/report.txt".toList, "report.txt".toList, none⟩ = [] :=
  ⟨by decide,
    C9_zip_dispatch_exact_lowercase.1 ("x".toList)
      ⟨"D:/report.txt".toList, "report.txt".toList, none⟩ (by decide)⟩

/-- C10: a snapshot of the shared results vector taken after any prefix
of the search traversal contains archive hits only; the final vector is
the archive hits followed by the collected filesystem hits, which are
appended only after the traversal finishes — so every archive hit
precedes every filesystem hit. -/
theorem C10_archive_hits_precede_filesystem_hits (q : Str)
    (es1 es2 : List Entry) :
    ((searchPass q es1).results.all (fun h => h.isZipEntry)) = true ∧
    finalResults q (es1 ++ es2) =
      (searchPass q (es1 ++ es2)).results ++
        (searchPass q (es1 ++ es2)).matched ∧
    ((searchPass q (es1 ++ es2)).matched.all (fun h => !h.isZipEntry)) = true := by
  refine ⟨?_, rfl, ?_⟩
  · rw [List.all_eq_true]
    intro h hm
    exact foldl_results_isZip q es1 ⟨[], [], 0⟩ (by intro h hm; cases hm) h hm
  · rw [List.all_eq_true]
    intro h hm
    have := foldl_matched_fs q (es1 ++ es2) ⟨[], [], 0⟩
      (by intro h hm; cases hm) h hm
    simp [this]

end RustSearch
